/-
Verification of the PyMOC coupling engine and thermal-wind solver.

This file gives a shallow embedding, over exact rationals, of
  * `Modules/model_thermwind.py` (`make_func`, `make_array`, `Psib`,
    the `sol_init` handling in `Model_Thermwind.__init__`), and
  * `src/pymoc/modules/module_wrapper.py` (`ModuleWrapper`: the neighbor
    graph, `timestep_basin`, `update_coupler`),
and proves the specified properties about them.  Machine floats are
modelled by `ℚ`; numpy arrays by `List ℚ`; values that are either a numpy
scalar or a numpy array (with broadcasting) by `NpVal`; Python exceptions
by `Except`, where the carried state records the (possibly partially
mutated) object state at raise time.
-/

import Mathlib

/-! ## Basic list utilities (numpy reductions) -/

/-- Model of `np.min` on a nonempty array (0 on the empty array, which in
numpy raises; all uses below are guarded by nonemptiness). -/
def listMin : List ℚ → ℚ
  | [] => 0
  | x :: xs => xs.foldl min x

/-- Model of `np.max` on a nonempty array. -/
def listMax : List ℚ → ℚ
  | [] => 0
  | x :: xs => xs.foldl max x

/-- Model of `np.linspace a b n`: `n` evenly spaced points from `a` to `b`
inclusive.  (For `n = 1` the division by `0` is `0` in `ℚ`, giving `[a]`,
matching numpy.) -/
def linspace (a b : ℚ) (n : ℕ) : List ℚ :=
  (List.range n).map (fun j : ℕ => a + (j : ℚ) * (b - a) / ((n : ℚ) - 1))

/-- Adjacent pairs `(l[i], l[i+1])` of a list. -/
def adjPairs (l : List ℚ) : List (ℚ × ℚ) := l.zip l.tail

/-- The signed depth-cell fluxes `udydz[i] = -(Psi[i+1] - Psi[i])` of
`Model_Thermwind.Psib`. -/
def fluxes (Psi : List ℚ) : List ℚ := (adjPairs Psi).map (fun p => -(p.2 - p.1))

/-- Midpoints `0.5*(l[i] + l[i+1])` of consecutive grid values
(`bgridmid` in `Psib`). -/
def midpoints (l : List ℚ) : List ℚ := (adjPairs l).map (fun p => (p.1 + p.2) / 2)

/-! ## np.interp -/

/-- Model of `np.interp x xp fp` for an increasing sample grid `xp`
(numpy documents that a non-increasing `xp` gives nonsense): constant
extrapolation outside the range, linear interpolation inside.  Returns `0`
on the length-mismatch patterns on which numpy raises. -/
def interp (x : ℚ) : List ℚ → List ℚ → ℚ
  | [], _ => 0
  | [_], [] => 0
  | [_], f0 :: _ => f0
  | _ :: _ :: _, [] => 0
  | _ :: _ :: _, [_] => 0
  | x0 :: x1 :: xs, f0 :: f1 :: fs =>
    if x ≤ x0 then f0
    else if x ≤ x1 then f0 + (f1 - f0) * (x - x0) / (x1 - x0)
    else interp x (x1 :: xs) (f1 :: fs)

/-! ## Buoyancy specifications: `make_func` / `make_array` -/

/-- The kinds of value Python can pass as a buoyancy specification:
a float, a numpy array, a callable, or anything else (unsupported). -/
inductive BuoySpec where
  | scalar (c : ℚ)
  | array (a : List ℚ)
  | func (f : ℚ → ℚ)
  | other

/-- Model of `Model_Thermwind.make_func`: turn an array or float into a
callable function.  A callable is returned as is; an array becomes
`fun z => np.interp z zin a`; a float becomes `fun z => c + 0*z`; anything
else raises `TypeError` (modelled by `Except.error ()`). -/
def make_func (myst : BuoySpec) (zin : List ℚ) : Except Unit (ℚ → ℚ) :=
  match myst with
  | .func f => .ok f
  | .array a => .ok (fun z => interp z zin a)
  | .scalar c => .ok (fun z => c + 0 * z)
  | .other => .error ()

/-- Model of `Model_Thermwind.make_array`: an array is returned as is; a
callable is sampled on the grid `self.z`; a float is broadcast as
`myst + 0*self.z`; anything else raises `TypeError`. -/
def make_array (myst : BuoySpec) (z : List ℚ) : Except Unit (List ℚ) :=
  match myst with
  | .array a => .ok a
  | .func f => .ok (z.map f)
  | .scalar c => .ok (z.map (fun y => c + 0 * y))
  | .other => .error ()

/-- Alignment requirement of the round-trip law: an array specification
must have one sample per grid point (otherwise the interpolating callable
raises inside numpy when evaluated). -/
def specAligned : BuoySpec → List ℚ → Prop
  | .array a, g => a.length = g.length
  | _, _ => True

instance (x : BuoySpec) (g : List ℚ) : Decidable (specAligned x g) := by
  cases x <;> simp [specAligned] <;> infer_instance

/-! ## Isopycnal remapping: `Psib` -/

/-- Bin-inclusion mask of one depth cell (the `mask[:,i]` column of `Psib`
after the two zeroing steps): bin midpoint `m` is kept iff
`lo ≤ m ≤ hi`. -/
def inclMask (mids : List ℚ) (lo hi : ℚ) : List ℚ :=
  mids.map (fun m => if lo ≤ m ∧ m ≤ hi then 1 else 0)

/-- A length-`n` 0/1 vector with a single `1` at position `idx`. -/
def unitVec (n idx : ℕ) : List ℚ :=
  (List.range n).map (fun k => if k = idx then 1 else 0)

/-- Model of `(np.abs (bgridmid - bmid)).argmin()`: the first index of
`mids` minimizing the distance to `t`. -/
def argminAbs (mids : List ℚ) (t : ℚ) : ℕ :=
  let d := mids.map (fun m => |m - t|)
  d.indexOf (listMin d)

/-- One column of the `Psib` mask matrix, for a depth cell with flux `u`,
`b1`-endpoints `p1 = (b1[i], b1[i+1])` and `b2`-endpoints
`p2 = (b2[i], b2[i+1])`: the code zeroes entries outside the `b1` span
when `udydz[i] > 0` and outside the `b2` span otherwise, then divides the
column by its sum if positive; if the sum is `0` (all 0/1 entries zeroed)
it sets the single entry nearest to the cell midpoint buoyancy to `1`,
making the column the corresponding unit vector. -/
def maskColumn (mids : List ℚ) (u : ℚ) (p1 p2 : ℚ × ℚ) : List ℚ :=
  let lh := if 0 < u then p1 else p2
  let raw := inclMask mids lh.1 lh.2
  let s := raw.sum
  if 0 < s then raw.map (fun x => x / s)
  else unitVec mids.length (argminAbs mids ((lh.1 + lh.2) / 2))

/-- The per-depth-cell data of the `Psib` loop: each cell's flux paired
with its mask column. -/
def maskCols (mids udydz b1 b2 : List ℚ) : List (ℚ × List ℚ) :=
  (udydz.zip ((adjPairs b1).zip (adjPairs b2))).map
    (fun c => (c.1, maskColumn mids c.1 c.2.1 c.2.2))

/-- The per-bin transport `transb[k] = np.sum (-udydz * mask[k,:])` of
`Psib`. -/
def transbOf (mids : List ℚ) (cols : List (ℚ × List ℚ)) : List ℚ :=
  (List.range mids.length).map
    (fun k => (cols.map (fun pc => -pc.1 * pc.2.getD k 0)).sum)

/-- Model of `Model_Thermwind.Psib`: map the overturning streamfunction
`Psi` into isopycnal space over a uniform `nb`-point buoyancy grid
spanning the joint range of the (already materialized) profiles `b1`,
`b2`.  `transb[k] = np.sum (-udydz * mask[k,:])`, and the result is
`np.append [0] (np.cumsum transb)`, which is `List.scanl (+) 0 transb`. -/
def Psib (Psi b1 b2 : List ℚ) (nb : ℕ) : List ℚ :=
  let bmin := min (listMin b1) (listMin b2)
  let bmax := max (listMax b1) (listMax b2)
  let bgridmid := midpoints (linspace bmin bmax nb)
  List.scanl (· + ·) 0 (transbOf bgridmid (maskCols bgridmid (fluxes Psi) b1 b2))

/-! ## Constructor handling of `sol_init` -/

/-- The `sol_init` argument of `Model_Thermwind.__init__`: `None` or a
numpy array (modelled flattened). -/
inductive PySolInit where
  | pynone
  | pyarr (a : List ℚ)
deriving DecidableEq

/-- Python truthiness of `sol_init` as evaluated by `if sol_init:`:
`None` is falsy; a 0-element array is falsy; a 1-element array has the
truth value of its element; an array of more than one element raises
`ValueError` (ambiguous truth value). -/
def pyTruthy : PySolInit → Except Unit Bool
  | .pynone => .ok false
  | .pyarr a =>
    match a with
    | [] => .ok false
    | [x] => .ok (decide (x ≠ 0))
    | _ => .error ()

/-- Model of the `sol_init` branch of `Model_Thermwind.__init__`:
`if sol_init: self.sol_init = sol_init  else: self.sol_init =
np.zeros((2, nz))`.  The stored array is modelled flattened, the default
being `2*nz` zeros.  (The `.pynone`/truthy combination is unreachable
since `None` is falsy; it is mapped to the default.) -/
def init_sol_init (s : PySolInit) (nz : ℕ) : Except Unit (List ℚ) :=
  match pyTruthy s with
  | .error e => .error e
  | .ok true =>
    match s with
    | .pyarr a => .ok a
    | .pynone => .ok (List.replicate (2 * nz) 0)
  | .ok false => .ok (List.replicate (2 * nz) 0)

/-! ## Numpy scalar-or-array values with broadcasting -/

/-- A value that is either a numpy scalar or a numpy 1-D array.  The
wrapper's transport buffer `psi` starts as the Python list `[0, 0]` of
scalars and is later refilled with arrays, so both shapes occur. -/
inductive NpVal where
  | scl (q : ℚ)
  | arr (a : List ℚ)
deriving DecidableEq

/-- Scalar multiplication `c * v` (numpy broadcasts over arrays). -/
def npMul (c : ℚ) : NpVal → NpVal
  | .scl q => .scl (c * q)
  | .arr a => .arr (a.map (fun x => c * x))

/-- Broadcasting addition; adding arrays of different lengths raises
`ValueError` in numpy, modelled by `Except.error ()`. -/
def npAdd : NpVal → NpVal → Except Unit NpVal
  | .scl p, .scl q => .ok (.scl (p + q))
  | .scl p, .arr b => .ok (.arr (b.map (fun x => p + x)))
  | .arr a, .scl q => .ok (.arr (a.map (fun x => x + q)))
  | .arr a, .arr b =>
    if a.length = b.length then .ok (.arr (List.zipWith (· + ·) a b))
    else .error ()

/-- Broadcasting subtraction, with the same failure mode as `npAdd`. -/
def npSub : NpVal → NpVal → Except Unit NpVal
  | .scl p, .scl q => .ok (.scl (p - q))
  | .scl p, .arr b => .ok (.arr (b.map (fun x => p - x)))
  | .arr a, .scl q => .ok (.arr (a.map (fun x => x - q)))
  | .arr a, .arr b =>
    if a.length = b.length then .ok (.arr (List.zipWith (· - ·) a b))
    else .error ()

/-- Flattening, as numpy reductions (`np.min`, `np.unique`, ...) do when
given a list of scalars and arrays. -/
def npFlatten : NpVal → List ℚ
  | .scl q => [q]
  | .arr a => a

/-- Sum of a list of values starting from the scalar `0` (the shape of
`wA = 0.0` accumulation). -/
def npSum (l : List NpVal) : Except Unit NpVal :=
  l.foldlM npAdd (NpVal.scl 0)

/-! ## The module wrapper -/

/-- The `module_type` tag of a wrapped physical module. -/
inductive MKind where
  | basin
  | coupler
deriving DecidableEq

/-- The capability record of a wrapped physical module, over an abstract
internal-state type `μ`.  Fields model, in order: the `module_type` tag;
the duck-typing probes `hasattr(module, 'b')`, `hasattr(module, 'bs')`,
`isinstance(module, SO_ML)`, `has_method(module, 'Psibz')`; the accessors
`module.b` and `module.bs`; `update(b1=,b2=)` and `update(b=,bs=)` (the
same Python method, keyed by which keywords the wrapper passes); `solve`;
`Psibz()`; the solved `module.Psi`; `timestep(wA=,dt=)`; and the `SO_ML`
variant `timestep(Psi_b=,dt=,b_basin=)`. -/
structure PMod (μ : Type) where
  kind : MKind
  hasB : Bool
  hasBS : Bool
  isSOML : Bool
  hasPsibz : Bool
  getB : μ → NpVal
  getBS : μ → NpVal
  updateb1b2 : Option NpVal → Option NpVal → μ → μ
  updatebbs : Option NpVal → Option NpVal → μ → μ
  solveF : μ → μ
  psibzF : μ → List NpVal
  psiF : μ → NpVal
  timestepF : NpVal → ℚ → μ → μ
  timestepML : NpVal → ℚ → NpVal → μ → μ

/-- A `ModuleWrapper` node: the wrapped module and its internal state,
the two neighbor lists (nodes named by `ℕ` keys), and the transport
buffer `psi` (initialized by `__init__` to `[0, 0]`). -/
structure WNode (μ : Type) where
  module : PMod μ
  mstate : μ
  left : List ℕ
  right : List ℕ
  psi : List NpVal

/-- The whole graph of wrapper nodes. -/
def GState (μ : Type) := ℕ → WNode μ

/-- Replace node `i` in the graph. -/
def setNode {μ : Type} (g : GState μ) (i : ℕ) (n : WNode μ) : GState μ :=
  fun j => if j = i then n else g j

/-- The exception taxonomy raised by the wrapper: `TypeError` on
`timestep_basin` of a non-basin (`notABasin`) and on `update_coupler` of
a non-coupler (`notACoupler`); `KeyError` on a duplicate edge
(`duplicate`); `ValueError` on coupler over-linking (`cardinality`); and
`other` for errors arising inside numpy / module calls. -/
inductive Err where
  | notABasin
  | notACoupler
  | duplicate
  | cardinality
  | other
deriving DecidableEq

/-- The `neighbors` property: `left_neighbors + right_neighbors`. -/
def nbrs {μ : Type} (n : WNode μ) : List ℕ := n.left ++ n.right

/-- The `b` property of a wrapper: `None` for non-basins, else
`module.b` if present, else `module.bs` if present, else `None`. -/
def nodeB {μ : Type} (g : GState μ) (i : ℕ) : Option NpVal :=
  if (g i).module.kind ≠ .basin then none
  else if (g i).module.hasB then some ((g i).module.getB (g i).mstate)
  else if (g i).module.hasBS then some ((g i).module.getBS (g i).mstate)
  else none

/-! ### Neighbor insertion -/

/-- The validations plus append of `add_left_neighbor` (without the
backlink): raise `KeyError` if `new` is already a neighbor of `self`,
raise `ValueError` if `self` is a coupler whose left slot is occupied,
else append `new` to `self.left_neighbors`.  An error carries the state
at raise time (here unmutated). -/
def add_left_core {μ : Type} (self new : ℕ) (g : GState μ) :
    Except (Err × GState μ) (GState μ) :=
  if new ∈ nbrs (g self) then .error (.duplicate, g)
  else if (g self).module.kind = .coupler ∧ (g self).left ≠ [] then
    .error (.cardinality, g)
  else .ok (setNode g self { g self with left := (g self).left ++ [new] })

/-- The validations plus append of `add_right_neighbor` (without the
backlink). -/
def add_right_core {μ : Type} (self new : ℕ) (g : GState μ) :
    Except (Err × GState μ) (GState μ) :=
  if new ∈ nbrs (g self) then .error (.duplicate, g)
  else if (g self).module.kind = .coupler ∧ (g self).right ≠ [] then
    .error (.cardinality, g)
  else .ok (setNode g self { g self with right := (g self).right ++ [new] })

/-- Model of `backlink_neighbor`: if `new` is among `self`'s right
neighbors make `self` a left neighbor of `new`, else make `self` a right
neighbor of `new` — in both cases with `is_backlinking=True`, i.e. the
core insertion without a further backlink. -/
def backlink_neighbor {μ : Type} (self new : ℕ) (g : GState μ) :
    Except (Err × GState μ) (GState μ) :=
  if new ∈ (g self).right then add_left_core new self g
  else add_right_core new self g

/-- Model of `add_left_neighbor self new is_backlinking`: validate and
append, then (unless backlinking) backlink.  A failing backlink
propagates with `self`'s list already mutated, as in Python. -/
def add_left_neighbor {μ : Type} (self new : ℕ) (backlinking : Bool)
    (g : GState μ) : Except (Err × GState μ) (GState μ) :=
  match add_left_core self new g with
  | .error e => .error e
  | .ok g' => if backlinking then .ok g' else backlink_neighbor self new g'

/-- Model of `add_right_neighbor self new is_backlinking`. -/
def add_right_neighbor {μ : Type} (self new : ℕ) (backlinking : Bool)
    (g : GState μ) : Except (Err × GState μ) (GState μ) :=
  match add_right_core self new g with
  | .error e => .error e
  | .ok g' => if backlinking then .ok g' else backlink_neighbor self new g'

/-! ### Basin time-stepping and coupler updating -/

/-- `psi[0]` of a Python list: raises `IndexError` on the empty list. -/
def pickHead : List NpVal → Except Unit NpVal
  | [] => .error ()
  | v :: _ => .ok v

/-- `psi[-1]` of a Python list: raises `IndexError` on the empty list. -/
def pickLast (l : List NpVal) : Except Unit NpVal :=
  match l.getLast? with
  | none => .error ()
  | some v => .ok v

/-- Sequentially evaluate a fallible selection over a list, collecting
the results (Python evaluation order: first failure wins). -/
def pickMapM {α : Type} (f : α → Except Unit NpVal) : List α → Except Unit (List NpVal)
  | [] => .ok []
  | a :: t =>
    match f a with
    | .error e => .error e
    | .ok v =>
      match pickMapM f t with
      | .error e => .error e
      | .ok vs => .ok (v :: vs)

/-- The net-flux loops of `timestep_basin`:
`wA = 0.0`, then `wA += neighbor.psi[0] * 1e6` over the right neighbors,
then `wA -= neighbor.psi[-1] * 1e6` over the left neighbors. -/
def computeWA {μ : Type} (g : GState μ) (n : WNode μ) : Except Unit NpVal := do
  let r ← n.right.foldlM
    (fun acc j => do
      let v ← pickHead (g j).psi
      npAdd acc (npMul 1000000 v))
    (NpVal.scl 0)
  n.left.foldlM
    (fun acc j => do
      let v ← pickLast (g j).psi
      npSub acc (npMul 1000000 v))
    r

/-- Model of `np.unique` on flattened data: sorted distinct values. -/
def npUnique (l : List ℚ) : List ℚ :=
  (List.insertionSort (· ≤ ·) l).dedup

/-- Model of `np.arange hi lo (-step)` for `step > 0`: the values
`hi, hi - step, ...` strictly above `lo`. -/
def arangeDown (hi lo step : ℚ) : List ℚ :=
  (List.range (Nat.ceil ((hi - lo) / step))).map (fun k => hi - (k : ℚ) * step)

/-- The `SO_ML` branch of `timestep_basin`: gather the buoyancy of the
basin behind each right-neighbor coupler, build the "universal" buoyancy
axis `b_basin = np.arange b_max b_min (-db)` with
`db = max (np.min (np.diff (np.sort (np.unique neighbor_b)))) 1e-6`, and
sum onto it the interpolated transport profiles
`np.interp (b_basin[::-1]) (b[::-1]) (psi[0][::-1]) [::-1]`.  All numpy
failure modes (missing far neighbor, `None` buoyancy, empty data, scalar
where an array is required, length mismatches) are modelled by
`Except.error ()`. -/
def somlArgs {μ : Type} (g : GState μ) (n : WNode μ) :
    Except Unit (NpVal × NpVal) := do
  let nbrB ← n.right.mapM (fun j =>
    match (g j).right with
    | [] => Except.error ()
    | k :: _ =>
      match nodeB g k with
      | none => Except.error ()
      | some v => Except.ok v)
  let flat := (nbrB.map npFlatten).flatten
  if flat = [] then Except.error ()
  else do
    let bmin := listMin flat
    let bmax := listMax flat
    let u := npUnique flat
    let dl := (u.zip u.tail).map (fun p => p.2 - p.1)
    if dl = [] then Except.error ()
    else do
      let db := max (listMin dl) (1 / 1000000)
      let bbasin := arangeDown bmax bmin db
      let profs ← n.right.mapM (fun j => do
        let xb ←
          match (g j).right with
          | [] => Except.error ()
          | k :: _ =>
            match nodeB g k with
            | some (NpVal.arr xb) => Except.ok xb
            | _ => Except.error ()
        let fp ←
          match (g j).psi with
          | [] => Except.error ()
          | p :: _ =>
            match p with
            | NpVal.arr fp => Except.ok fp
            | _ => Except.error ()
        if xb.length = fp.length ∧ xb ≠ [] then
          Except.ok ((bbasin.reverse.map
            (fun x => interp x xb.reverse fp.reverse)).reverse)
        else Except.error ())
      let psib := profs.foldl (fun acc p => List.zipWith (· + ·) acc p)
        (List.replicate bbasin.length 0)
      Except.ok (NpVal.arr psib, NpVal.arr bbasin)

/-- Model of `ModuleWrapper.timestep_basin`: raise `TypeError`
(`Err.notABasin`) unless the module is a basin; compute the net flux
`wA`; then either the `SO_ML` universal-axis path or
`module.timestep(wA=wA, dt=dt)`.  Numpy errors surface as `Err.other`
with the graph unmutated. -/
def timestep_basin {μ : Type} (dt : ℚ) (i : ℕ) (g : GState μ) :
    Except (Err × GState μ) (GState μ) :=
  if (g i).module.kind ≠ .basin then .error (.notABasin, g)
  else
    match computeWA g (g i) with
    | .error _ => .error (.other, g)
    | .ok wA =>
      if (g i).module.isSOML then
        match somlArgs g (g i) with
        | .error _ => .error (.other, g)
        | .ok pb =>
          .ok (setNode g i
            { g i with mstate := (g i).module.timestepML pb.1 dt pb.2 (g i).mstate })
      else
        .ok (setNode g i
          { g i with mstate := (g i).module.timestepF wA dt (g i).mstate })

/-- Model of `ModuleWrapper.update_coupler`: raise `TypeError`
(`Err.notACoupler`) unless the module is a coupler; read the buoyancy of
the first left and first right neighbors (`None` when absent); call
`update(b=b2, bs=b1)` if the module has a `bs` attribute, else
`update(b1=b1, b2=b2)`; call `solve()`; and refresh `psi` to
`module.Psibz()` if supported, else `[module.Psi]`. -/
def update_coupler {μ : Type} (i : ℕ) (g : GState μ) :
    Except (Err × GState μ) (GState μ) :=
  if (g i).module.kind ≠ .coupler then .error (.notACoupler, g)
  else
    let n := g i
    let b1 := match n.left with | [] => none | j :: _ => nodeB g j
    let b2 := match n.right with | [] => none | j :: _ => nodeB g j
    let m1 := if n.module.hasBS then n.module.updatebbs b2 b1 n.mstate
      else n.module.updateb1b2 b1 b2 n.mstate
    let m2 := n.module.solveF m1
    let psiNew := if n.module.hasPsibz then n.module.psibzF m2
      else [n.module.psiF m2]
    .ok (setNode g i { n with mstate := m2, psi := psiNew })

/-! ### Sequences of insertions, for the cardinality invariant -/

/-- A single neighbor-insertion operation (the public, non-backlink
entry points). -/
inductive AddOp where
  | addL (self new : ℕ)
  | addR (self new : ℕ)

/-- Apply one insertion; on an exception the graph is left in the state
carried by the error (Python mutates in place, so a caught exception
leaves that state behind). -/
def applyOp {μ : Type} (g : GState μ) (op : AddOp) : GState μ :=
  match op with
  | .addL s n =>
    match add_left_neighbor s n false g with
    | .ok g' => g'
    | .error e => e.2
  | .addR s n =>
    match add_right_neighbor s n false g with
    | .ok g' => g'
    | .error e => e.2

/-- Apply a sequence of insertions in order. -/
def applyOps {μ : Type} (g : GState μ) (ops : List AddOp) : GState μ :=
  ops.foldl applyOp g

/-- The coupler-cardinality invariant: every coupler node holds at most
one left and at most one right neighbor. -/
def CouplerInv {μ : Type} (g : GState μ) : Prop :=
  ∀ i, (g i).module.kind = .coupler →
    (g i).left.length ≤ 1 ∧ (g i).right.length ≤ 1

/-- The state a wrapper operation leaves behind: the new graph on
success, the graph carried by the exception on failure (Python mutates in
place, so this is what a caller observes after catching). -/
def outState {μ : Type} : Except (Err × GState μ) (GState μ) → GState μ
  | .ok g => g
  | .error e => e.2

/-- A trivial physics module, used to instantiate the graph model on
concrete examples. -/
def trivPMod (k : MKind) : PMod Unit where
  kind := k
  hasB := false
  hasBS := false
  isSOML := false
  hasPsibz := false
  getB := fun _ => .scl 0
  getBS := fun _ => .scl 0
  updateb1b2 := fun _ _ s => s
  updatebbs := fun _ _ s => s
  solveF := id
  psibzF := fun _ => []
  psiF := fun _ => .scl 0
  timestepF := fun _ _ s => s
  timestepML := fun _ _ _ s => s

/-- A fresh unconnected wrapper node of the given kind. -/
def trivNode (k : MKind) : WNode Unit :=
  { module := trivPMod k, mstate := (), left := [], right := [],
    psi := [NpVal.scl 0, NpVal.scl 0] }

/-- A graph of disconnected basins. -/
def basinGraph : GState Unit := fun _ => trivNode .basin

/-- A coupler module over a recording state: `update` stores the pair of
arguments it was called with (for the `b`/`bs` keyword form, the pair
`(b, bs)`), so the wrapper's argument binding is observable. -/
def recMod : PMod (Option NpVal × Option NpVal) where
  kind := .coupler
  hasB := false
  hasBS := true
  isSOML := false
  hasPsibz := false
  getB := fun _ => .scl 0
  getBS := fun _ => .scl 0
  updateb1b2 := fun b1 b2 _ => (b1, b2)
  updatebbs := fun b bs _ => (b, bs)
  solveF := id
  psibzF := fun _ => []
  psiF := fun _ => .scl 0
  timestepF := fun _ _ s => s
  timestepML := fun _ _ _ s => s

/-- A basin with constant buoyancy `q`, over the recording state type. -/
def recBasin (q : ℚ) : WNode (Option NpVal × Option NpVal) :=
  { module :=
      { recMod with
        kind := .basin
        hasB := true
        hasBS := false
        getB := fun _ => .scl q },
    mstate := (none, none), left := [], right := [],
    psi := [NpVal.scl 0, NpVal.scl 0] }

/-- A graph for exercising the net-flux computation: basin `0` with the
coupler `1` to its right (transport buffer `[3, 4]`) and the coupler `2`
to its left (transport buffer `[5, 7]`). -/
def fluxGraph : GState Unit := fun i =>
  if i = 0 then { trivNode .basin with left := [2], right := [1] }
  else if i = 1 then
    { trivNode .coupler with psi := [NpVal.scl 3, NpVal.scl 4] }
  else { trivNode .coupler with psi := [NpVal.scl 5, NpVal.scl 7] }

/-- A three-node graph: recording coupler `0` with left neighbor the
basin `1` (buoyancy `10`) and right neighbor the basin `2`
(buoyancy `20`). -/
def recGraph : GState (Option NpVal × Option NpVal) :=
  fun i =>
    if i = 0 then
      { module := recMod, mstate := (none, none), left := [1], right := [2],
        psi := [NpVal.scl 0, NpVal.scl 0] }
    else if i = 1 then recBasin 10
    else recBasin 20

/-! ## General list lemmas -/

theorem sum_map_addQ {α : Type} (l : List α) (f g' : α → ℚ) :
    (l.map (fun x => f x + g' x)).sum = (l.map f).sum + (l.map g').sum := by
  induction l with
  | nil => simp
  | cons x t ih => simp only [List.map_cons, List.sum_cons, ih]; ring

theorem sum_map_negQ {α : Type} (l : List α) (f : α → ℚ) :
    (l.map (fun x => -f x)).sum = -(l.map f).sum := by
  induction l with
  | nil => simp
  | cons x t ih => simp only [List.map_cons, List.sum_cons, ih]; ring

theorem sum_map_mulQ {α : Type} (l : List α) (c : ℚ) (f : α → ℚ) :
    (l.map (fun x => c * f x)).sum = c * (l.map f).sum := by
  induction l with
  | nil => simp
  | cons x t ih => simp only [List.map_cons, List.sum_cons, ih]; ring

theorem sum_map_divQ (l : List ℚ) (s : ℚ) :
    (l.map (fun x => x / s)).sum = l.sum / s := by
  induction l with
  | nil => simp
  | cons x t ih => simp only [List.map_cons, List.sum_cons, ih]; ring

theorem sum_getD_range (l : List ℚ) :
    ((List.range l.length).map (fun k => l.getD k 0)).sum = l.sum := by
  induction l with
  | nil => simp
  | cons x t ih =>
    rw [List.length_cons, List.range_succ_eq_map, List.map_cons, List.map_map]
    simp only [List.sum_cons, List.getD_cons_zero]
    have hcomp : ((fun k => (x :: t).getD k 0) ∘ Nat.succ) = fun k => t.getD k 0 := by
      funext k
      simp
    rw [hcomp, ih]

theorem scanl_headI (l : List ℚ) (a : ℚ) : (List.scanl (· + ·) a l).headI = a := by
  cases l <;> simp [List.scanl]

theorem scanl_getLastD (l : List ℚ) (a d : ℚ) :
    (List.scanl (· + ·) a l).getLastD d = a + l.sum := by
  induction l generalizing a d with
  | nil => simp [List.scanl]
  | cons x t ih =>
    rw [List.scanl_cons, List.singleton_append, List.getLastD_cons, ih]
    simp only [List.sum_cons]
    ring

theorem unitVec_length (n idx : ℕ) : (unitVec n idx).length = n := by
  simp [unitVec]

theorem unitVec_sum {n idx : ℕ} (h : idx < n) : (unitVec n idx).sum = 1 := by
  induction n with
  | zero => omega
  | succ m ih =>
    rw [unitVec, List.range_succ, List.map_append, List.sum_append]
    rcases Nat.lt_succ_iff_lt_or_eq.mp h with h' | h'
    · rw [show ((List.range m).map fun k => if k = idx then (1:ℚ) else 0)
        = unitVec m idx from rfl, ih h']
      simp [Nat.ne_of_gt h']
    · subst h'
      have hz : ((List.range idx).map fun k => if k = idx then (1:ℚ) else 0).sum = 0 := by
        apply List.sum_eq_zero
        intro x hx
        simp only [List.mem_map, List.mem_range] at hx
        obtain ⟨k, hk, rfl⟩ := hx
        simp [Nat.ne_of_lt hk]
      simp [hz]

theorem unitVec_getD {n idx : ℕ} (k : ℕ) (hk : k < n) :
    (unitVec n idx).getD k 0 = if k = idx then 1 else 0 := by
  have hk' : k < (unitVec n idx).length := by rwa [unitVec_length]
  rw [List.getD_eq_getElem _ _ hk']
  simp [unitVec]

theorem foldl_min_mem (xs : List ℚ) (a : ℚ) : xs.foldl min a ∈ a :: xs := by
  induction xs generalizing a with
  | nil => simp
  | cons x t ih =>
    rw [List.foldl_cons]
    rcases List.mem_cons.mp (ih (min a x)) with h | h
    · rcases min_choice a x with hc | hc <;> rw [h, hc] <;> simp
    · simp [h]

theorem foldl_min_le_init (xs : List ℚ) (a : ℚ) : xs.foldl min a ≤ a := by
  induction xs generalizing a with
  | nil => simp
  | cons x t ih => exact le_trans (ih (min a x)) (min_le_left a x)

theorem foldl_min_le (xs : List ℚ) (a y : ℚ) (hy : y ∈ xs) : xs.foldl min a ≤ y := by
  induction xs generalizing a with
  | nil => simp at hy
  | cons x t ih =>
    rw [List.foldl_cons]
    rcases List.mem_cons.mp hy with h | h
    · subst h
      exact le_trans (foldl_min_le_init t _) (min_le_right a y)
    · exact ih _ h

theorem listMin_mem (l : List ℚ) (h : l ≠ []) : listMin l ∈ l := by
  cases l with
  | nil => exact absurd rfl h
  | cons x t => exact foldl_min_mem t x

theorem listMin_le (l : List ℚ) (y : ℚ) (hy : y ∈ l) : listMin l ≤ y := by
  cases l with
  | nil => simp at hy
  | cons x t =>
    rcases List.mem_cons.mp hy with h | h
    · subst h; exact foldl_min_le_init t y
    · exact foldl_min_le t x y h

/-! ## C10: constructor handling of `sol_init` -/

/-- C10: giving `sol_init` as a numpy array of more than one element makes
the constructor raise (Python evaluates the array's truth value, which is
ambiguous), so such an array is never stored; and the all-zero `[2, nz]`
default is installed exactly when `sol_init` is `None` or otherwise
falsy. -/
theorem sol_init_truthiness (a : List ℚ) (nz : ℕ) (h2 : 2 ≤ a.length) :
    init_sol_init (PySolInit.pyarr a) nz = .error () ∧
    ∀ s : PySolInit, init_sol_init s nz = .ok (List.replicate (2 * nz) 0) ↔
      pyTruthy s = .ok false := by
  constructor
  · cases a with
    | nil => simp at h2
    | cons x t =>
      cases t with
      | nil => simp at h2
      | cons y t' => simp [init_sol_init, pyTruthy]
  · intro s
    constructor
    · intro h
      cases s with
      | pynone => rfl
      | pyarr a' =>
        cases a' with
        | nil => rfl
        | cons x t =>
          cases t with
          | nil =>
            by_cases hx : x = 0
            · subst hx; simp [pyTruthy]
            · exfalso
              simp [init_sol_init, pyTruthy, hx] at h
              have := congrArg List.length h
              simp at this
              omega
          | cons y t' => simp [init_sol_init, pyTruthy] at h
    · intro h
      cases s with
      | pynone => rfl
      | pyarr a' =>
        cases a' with
        | nil => rfl
        | cons x t =>
          cases t with
          | nil =>
            simp [pyTruthy] at h
            subst h
            simp [init_sol_init, pyTruthy]
          | cons y t' => simp [pyTruthy] at h

/-- Witness for C10 at the concrete input `a = [1, 2]`, `nz = 2`. -/
theorem sol_init_truthiness_check :
    2 ≤ ([1, 2] : List ℚ).length ∧
    (init_sol_init (PySolInit.pyarr [1, 2]) 2 = .error () ∧
     ∀ s : PySolInit, init_sol_init s 2 = .ok (List.replicate (2 * 2) 0) ↔
       pyTruthy s = .ok false) :=
  ⟨by decide, sol_init_truthiness [1, 2] 2 (by decide)⟩

/-! ## C6: the round-trip law `make_array (make_func x) = make_array x` -/

theorem chain_lt_getD (l : List ℚ) (a : ℚ)
    (h : List.Chain' (· < ·) (a :: l)) (k : ℕ) (hk : k < l.length) :
    a < l.getD k 0 := by
  induction l generalizing a k with
  | nil => simp at hk
  | cons b t ih =>
    have hab : a < b := (List.chain'_cons.mp h).1
    have h2 : List.Chain' (· < ·) (b :: t) := (List.chain'_cons.mp h).2
    cases k with
    | zero => simpa using hab
    | succ k' =>
      have hk' : k' < t.length := by simpa using hk
      exact lt_trans hab (by simpa using ih b h2 k' hk')

/-- Evaluating the piecewise-linear interpolant at a sample point of a
strictly increasing grid returns the sample value exactly. -/
theorem interp_get (xp : List ℚ) : ∀ (fp : List ℚ),
    List.Chain' (· < ·) xp → xp.length = fp.length →
    ∀ j, j < xp.length → interp (xp.getD j 0) xp fp = fp.getD j 0 := by
  induction xp with
  | nil => intro fp _ _ j hj; simp at hj
  | cons x0 rest ih =>
    intro fp hc hlen j hj
    cases fp with
    | nil => simp at hlen
    | cons f0 fs =>
      cases rest with
      | nil =>
        have hj0 : j = 0 := by simpa using hj
        subst hj0
        cases fs with
        | nil => simp [interp]
        | cons f1 fs' => simp [interp]
      | cons x1 rest' =>
        cases fs with
        | nil => simp at hlen
        | cons f1 fs' =>
          have hx01 : x0 < x1 := (List.chain'_cons.mp hc).1
          have hc' : List.Chain' (· < ·) (x1 :: rest') := (List.chain'_cons.mp hc).2
          cases j with
          | zero =>
            simp [interp]
          | succ j' =>
            have hx : (x0 :: x1 :: rest').getD (j' + 1) 0 = (x1 :: rest').getD j' 0 := by
              simp
            rw [hx]
            have hgt : x0 < (x1 :: rest').getD j' 0 :=
              chain_lt_getD _ x0 hc j' (by simpa using hj)
            cases j' with
            | zero =>
              simp only [List.getD_cons_zero]
              rw [interp, if_neg (not_le.mpr hx01), if_pos le_rfl]
              have hne : x1 - x0 ≠ 0 := sub_ne_zero.mpr (ne_of_gt hx01)
              field_simp
            | succ j'' =>
              have hj'' : j'' < rest'.length := by simpa using hj
              have hgt1 : x1 < rest'.getD j'' 0 :=
                chain_lt_getD _ x1 hc' j'' hj''
              simp only [List.getD_cons_succ]
              rw [interp, if_neg, if_neg]
              · have := ih (f1 :: fs') hc' (by simpa using hlen) (j'' + 1)
                  (by simpa using hj'')
                simpa using this
              · exact not_le.mpr hgt1
              · exact not_le.mpr (lt_trans hx01 hgt1)

/-- C6: for every supported buoyancy specification (scalar, grid-aligned
array, or function) over a strictly increasing grid,
`make_array (make_func x zin) z` agrees with `make_array x z` at the grid
points; an unsupported specification makes both `make_func` and
`make_array` raise `TypeError`. -/
theorem make_func_make_array_roundtrip (x : BuoySpec) (g : List ℚ)
    (hg : List.Chain' (· < ·) g) (ha : specAligned x g) :
    (∀ f, make_func x g = .ok f →
      make_array (BuoySpec.func f) g = make_array x g) ∧
    make_func BuoySpec.other g = .error () ∧
    make_array BuoySpec.other g = .error () := by
  refine ⟨?_, rfl, rfl⟩
  intro f hf
  cases x with
  | func f0 =>
    injection hf with hf'
    subst hf'
    rfl
  | scalar c =>
    injection hf with hf'
    subst hf'
    rfl
  | array a =>
    injection hf with hf'
    subst hf'
    simp only [make_array]
    congr 1
    have hlen : a.length = g.length := ha
    apply List.ext_getElem
    · simp [hlen]
    · intro n h1 h2
      have hn : n < g.length := by simpa using h1
      have hna : n < a.length := by omega
      have hmap : (g.map fun z => interp z g a)[n] = interp g[n] g a := by
        simp
      rw [hmap]
      have hgd : g.getD n 0 = g[n] := List.getD_eq_getElem g 0 hn
      have had : a.getD n 0 = a[n] := List.getD_eq_getElem a 0 hna
      rw [← hgd, ← had]
      exact interp_get g a hg hlen.symm n hn
  | other => simp [make_func] at hf

/-- Witness for C6 at the concrete input `x = array [3, 7]`,
`g = [0, 1]`. -/
theorem make_func_make_array_roundtrip_check :
    (List.Chain' (· < ·) [(0:ℚ), 1] ∧
      specAligned (BuoySpec.array [3, 7]) [0, 1]) ∧
    ((∀ f, make_func (BuoySpec.array [3, 7]) [0, 1] = .ok f →
      make_array (BuoySpec.func f) [0, 1] =
        make_array (BuoySpec.array [3, 7]) [0, 1]) ∧
     make_func BuoySpec.other [0, 1] = .error () ∧
     make_array BuoySpec.other [0, 1] = .error ()) :=
  ⟨⟨by norm_num [List.chain'_cons, List.chain'_singleton], by decide⟩,
   make_func_make_array_roundtrip _ _
     (by norm_num [List.chain'_cons, List.chain'_singleton]) (by decide)⟩

/-! ## Lemmas on the `Psib` mask machinery -/

theorem inclMask_length (mids : List ℚ) (lo hi : ℚ) :
    (inclMask mids lo hi).length = mids.length := by
  simp [inclMask]

theorem inclMask_sum_nonneg (mids : List ℚ) (lo hi : ℚ) :
    0 ≤ (inclMask mids lo hi).sum := by
  apply List.sum_nonneg
  intro x hx
  simp only [inclMask, List.mem_map] at hx
  obtain ⟨m, _, rfl⟩ := hx
  split <;> norm_num

theorem argminAbs_lt (mids : List ℚ) (t : ℚ) (hne : mids ≠ []) :
    argminAbs mids t < mids.length := by
  have hd : mids.map (fun m => |m - t|) ≠ [] := by simpa using hne
  have h := List.indexOf_lt_length.mpr (listMin_mem _ hd)
  simpa [argminAbs] using h

theorem argminAbs_min (mids : List ℚ) (t : ℚ) (hne : mids ≠ []) (j : ℕ)
    (hj : j < mids.length) :
    |mids.getD (argminAbs mids t) 0 - t| ≤ |mids.getD j 0 - t| := by
  have hlt : argminAbs mids t < mids.length := argminAbs_lt mids t hne
  have hdne : mids.map (fun m => |m - t|) ≠ [] := by simpa using hne
  have hmem := listMin_mem _ hdne
  have hidxlt : (mids.map (fun m => |m - t|)).indexOf
      (listMin (mids.map (fun m => |m - t|)))
      < (mids.map (fun m => |m - t|)).length :=
    List.indexOf_lt_length.mpr hmem
  have hval : (mids.map (fun m => |m - t|)).get ⟨argminAbs mids t, by
      simpa [argminAbs] using hidxlt⟩ = listMin (mids.map (fun m => |m - t|)) := by
    exact List.indexOf_get _
  have hget : (mids.map (fun m => |m - t|)).get ⟨argminAbs mids t, by
      simpa [argminAbs] using hidxlt⟩ = |mids.getD (argminAbs mids t) 0 - t| := by
    rw [List.get_map]
    congr 1
    rw [List.getD_eq_getElem _ _ hlt]
    rfl
  have hj' : |mids.getD j 0 - t| ∈ mids.map (fun m => |m - t|) := by
    rw [List.getD_eq_getElem _ _ hj]
    exact List.mem_map_of_mem _ (mids.getElem_mem hj)
  calc |mids.getD (argminAbs mids t) 0 - t|
      = listMin (mids.map (fun m => |m - t|)) := by rw [← hget, hval]
    _ ≤ |mids.getD j 0 - t| := listMin_le _ _ hj'

theorem maskColumn_length (mids : List ℚ) (u : ℚ) (p1 p2 : ℚ × ℚ) :
    (maskColumn mids u p1 p2).length = mids.length := by
  simp only [maskColumn]
  split_ifs <;> simp [inclMask_length, unitVec_length]

theorem maskColumn_sum_one (mids : List ℚ) (u : ℚ) (p1 p2 : ℚ × ℚ)
    (hne : mids ≠ []) : (maskColumn mids u p1 p2).sum = 1 := by
  simp only [maskColumn]
  split_ifs with hu h1 h2
  · rw [sum_map_divQ]
    exact div_self (ne_of_gt h1)
  · exact unitVec_sum (argminAbs_lt mids _ hne)
  · rw [sum_map_divQ]
    exact div_self (ne_of_gt h2)
  · exact unitVec_sum (argminAbs_lt mids _ hne)

theorem map_fst_zipQ {α β : Type} (l1 : List α) (l2 : List β)
    (h : l1.length ≤ l2.length) : (l1.zip l2).map Prod.fst = l1 := by
  induction l1 generalizing l2 with
  | nil => simp
  | cons x t ih =>
    cases l2 with
    | nil => simp at h
    | cons y s =>
      simp only [List.zip_cons_cons, List.map_cons]
      rw [ih s (by simpa using h)]

theorem sum_range_swap {β : Type} (cols : List β) (n : ℕ) (f : β → ℕ → ℚ) :
    ((List.range n).map (fun k => (cols.map (fun c => f c k)).sum)).sum
      = (cols.map (fun c => ((List.range n).map (f c)).sum)).sum := by
  induction cols with
  | nil => simp
  | cons c cs ih =>
    simp only [List.map_cons, List.sum_cons]
    rw [sum_map_addQ, ih]

theorem adjPairs_length (l : List ℚ) : (adjPairs l).length = l.length - 1 := by
  simp only [adjPairs, List.length_zip, List.length_tail]
  omega

theorem fluxes_length (Psi : List ℚ) : (fluxes Psi).length = Psi.length - 1 := by
  simp [fluxes, adjPairs_length]

theorem midpoints_length (l : List ℚ) : (midpoints l).length = l.length - 1 := by
  simp [midpoints, adjPairs_length]

theorem linspace_length (a b : ℚ) (n : ℕ) : (linspace a b n).length = n := by
  unfold linspace
  rw [List.length_map, List.length_range]

theorem maskCols_entries (mids udydz b1 b2 : List ℚ) (hne : mids ≠ []) :
    ∀ pc ∈ maskCols mids udydz b1 b2,
      pc.2.length = mids.length ∧ pc.2.sum = 1 := by
  intro pc hpc
  simp only [maskCols, List.mem_map] at hpc
  obtain ⟨c, _, rfl⟩ := hpc
  exact ⟨maskColumn_length _ _ _ _, maskColumn_sum_one _ _ _ _ hne⟩

theorem maskCols_fst (mids udydz b1 b2 : List ℚ)
    (h1 : udydz.length ≤ (adjPairs b1).length)
    (h2 : udydz.length ≤ (adjPairs b2).length) :
    (maskCols mids udydz b1 b2).map (fun pc => pc.1) = udydz := by
  simp only [maskCols, List.map_map]
  rw [show ((fun pc : ℚ × List ℚ => pc.1) ∘
      fun c : ℚ × ((ℚ × ℚ) × (ℚ × ℚ)) =>
        (c.1, maskColumn mids c.1 c.2.1 c.2.2)) = Prod.fst from rfl]
  apply map_fst_zipQ
  rw [List.length_zip]
  omega

theorem transbOf_sum (mids : List ℚ) (cols : List (ℚ × List ℚ))
    (hcols : ∀ pc ∈ cols, pc.2.length = mids.length ∧ pc.2.sum = 1) :
    (transbOf mids cols).sum = -((cols.map (fun pc => pc.1)).sum) := by
  rw [transbOf, sum_range_swap]
  have hcol : ∀ pc ∈ cols,
      ((List.range mids.length).map (fun k => -pc.1 * pc.2.getD k 0)).sum
        = -pc.1 := by
    intro pc hpc
    obtain ⟨hlen, hsum⟩ := hcols pc hpc
    rw [sum_map_mulQ, ← hlen, sum_getD_range, hsum, mul_one]
  rw [List.map_congr_left hcol, sum_map_negQ]

theorem sum_zip_tail_sub (l : List ℚ) :
    ((l.zip l.tail).map (fun p => p.2 - p.1)).sum = l.getLastD 0 - l.headI := by
  induction l with
  | nil =>
    have h1 : (([] : List ℚ).zip ([] : List ℚ).tail).map
        (fun p : ℚ × ℚ => p.2 - p.1) = [] := rfl
    have h2 : ([] : List ℚ).headI = 0 := rfl
    have h3 : ([] : List ℚ).getLastD 0 = 0 := rfl
    rw [h1, h2, h3]
    simp
  | cons a t ih =>
    cases t with
    | nil => simp
    | cons b s =>
      have hz : (a :: b :: s).zip (a :: b :: s).tail
          = (a, b) :: ((b :: s).zip (b :: s).tail) := by
        simp [List.zip_cons_cons]
      rw [hz, List.map_cons, List.sum_cons, ih]
      have hgl : (a :: b :: s).getLastD 0 = (b :: s).getLastD 0 := by
        simp [List.getLastD_eq_getLast?, List.getLast?_cons_cons]
      rw [hgl]
      simp only [List.headI]
      ring

theorem fluxes_sum (Psi : List ℚ) :
    (fluxes Psi).sum = Psi.headI - Psi.getLastD 0 := by
  have h : fluxes Psi = (Psi.zip Psi.tail).map (fun p => -(p.2 - p.1)) := rfl
  rw [h, sum_map_negQ, sum_zip_tail_sub]
  ring

/-! ## C4: bin-inclusion mask of `Psib` -/

/-- C4 counterexample: a depth cell with flux exactly `0` (which the
claim places on the `b1` branch since `0 ≥ 0`) whose first bin midpoint
`1` lies between the `b1` endpoints `0` and `2`, yet the code (which
tests `udydz[i] > 0` strictly) builds the mask from the `b2` span
`[20, 22]` and gives that bin a zero entry. -/
theorem maskColumn_zero_flux_cex :
    (0:ℚ) ≥ 0 ∧
    ((0:ℚ) ≤ 1 ∧ (1:ℚ) ≤ 2) ∧
    ¬ 0 < (maskColumn [1, 21] 0 (0, 2) (20, 22)).getD 0 0 := by
  refine ⟨le_refl 0, ⟨by norm_num, by norm_num⟩, ?_⟩
  norm_num [maskColumn, inclMask]

/-- C4 (amended): the selecting condition is `flux > 0` (not `flux ≥ 0`):
for `flux > 0` a bin midpoint is included in the cell's column exactly
when it lies between `b1[i]` and `b1[i+1]`, for `flux ≤ 0` exactly when
it lies between `b2[i]` and `b2[i+1]`; and whenever the inclusion column
has positive sum it is normalized to sum to 1 (an even split among the
included bins). -/
theorem maskColumn_inclusion (mids : List ℚ) (u : ℚ) (p1 p2 : ℚ × ℚ)
    (k : ℕ) (hk : k < mids.length)
    (hs : 0 < (inclMask mids (if 0 < u then p1 else p2).1
      (if 0 < u then p1 else p2).2).sum) :
    (0 < (maskColumn mids u p1 p2).getD k 0 ↔
      ((if 0 < u then p1 else p2).1 ≤ mids.getD k 0 ∧
        mids.getD k 0 ≤ (if 0 < u then p1 else p2).2)) ∧
    (maskColumn mids u p1 p2).sum = 1 := by
  set lh := if 0 < u then p1 else p2 with hlh
  constructor
  · simp only [maskColumn, ← hlh]
    rw [if_pos hs]
    have hkr : k < (inclMask mids lh.1 lh.2).length := by
      rw [inclMask_length]
      exact hk
    rw [List.getD_eq_getElem _ _ (by simpa using hkr), List.getElem_map]
    have hraw : (inclMask mids lh.1 lh.2)[k] =
        if lh.1 ≤ mids[k] ∧ mids[k] ≤ lh.2 then (1:ℚ) else 0 := by
      simp [inclMask]
    rw [hraw, List.getD_eq_getElem mids 0 hk]
    by_cases hc : lh.1 ≤ mids[k] ∧ mids[k] ≤ lh.2
    · rw [if_pos hc]
      simp only [hc, and_self, iff_true]
      exact div_pos one_pos hs
    · rw [if_neg hc]
      simp [hc]
  · exact maskColumn_sum_one _ _ _ _ (by
      intro h
      rw [h] at hk
      simp at hk)

/-- Witness for C4 (amended) at `mids = [1]`, `u = 1`, `p1 = (0, 2)`,
`p2 = (5, 6)`, `k = 0`. -/
theorem maskColumn_inclusion_check :
    (0 < ([(1:ℚ)] : List ℚ).length ∧
     0 < (inclMask [1] (if (0:ℚ) < 1 then ((0:ℚ), (2:ℚ)) else ((5:ℚ), (6:ℚ))).1
       (if (0:ℚ) < 1 then ((0:ℚ), (2:ℚ)) else ((5:ℚ), (6:ℚ))).2).sum) ∧
    ((0 < (maskColumn [1] 1 (0, 2) (5, 6)).getD 0 0 ↔
       ((if (0:ℚ) < 1 then ((0:ℚ), (2:ℚ)) else ((5:ℚ), (6:ℚ))).1
           ≤ ([(1:ℚ)] : List ℚ).getD 0 0 ∧
        ([(1:ℚ)] : List ℚ).getD 0 0
           ≤ (if (0:ℚ) < 1 then ((0:ℚ), (2:ℚ)) else ((5:ℚ), (6:ℚ))).2)) ∧
     (maskColumn [1] 1 (0, 2) (5, 6)).sum = 1) :=
  ⟨⟨by norm_num, by norm_num [inclMask]⟩,
   maskColumn_inclusion [1] 1 (0, 2) (5, 6) 0 (by norm_num)
     (by norm_num [inclMask])⟩

/-! ## C5: degenerate-bin fallback of `Psib` -/

/-- C5: when the selected buoyancy span of a depth cell contains no bin
midpoint (its 0/1 inclusion column sums to zero), `Psib` assigns the
entire cell to exactly one bin: the column becomes the unit vector at the
first bin midpoint nearest to the cell's midpoint buoyancy, and it still
sums to 1, so no cell's flux is ever assigned to zero bins. -/
theorem maskColumn_fallback (mids : List ℚ) (u : ℚ) (p1 p2 : ℚ × ℚ)
    (lo hi : ℚ) (hsel : (if 0 < u then p1 else p2) = (lo, hi))
    (hne : mids ≠ [])
    (hz : (inclMask mids lo hi).sum = 0) :
    maskColumn mids u p1 p2
      = unitVec mids.length (argminAbs mids ((lo + hi) / 2)) ∧
    argminAbs mids ((lo + hi) / 2) < mids.length ∧
    (∀ j, j < mids.length →
      |mids.getD (argminAbs mids ((lo + hi) / 2)) 0 - (lo + hi) / 2|
        ≤ |mids.getD j 0 - (lo + hi) / 2|) ∧
    (maskColumn mids u p1 p2).sum = 1 := by
  refine ⟨?_, argminAbs_lt mids _ hne,
    fun j hj => argminAbs_min mids _ hne j hj,
    maskColumn_sum_one _ _ _ _ hne⟩
  simp only [maskColumn, hsel]
  rw [if_neg (by rw [hz]; exact lt_irrefl 0)]

/-- Witness for C5 at `mids = [0, 10]`, `u = 1`, `p1 = (4, 5)` (a span
containing no bin midpoint), `p2 = (0, 0)`. -/
theorem maskColumn_fallback_check :
    ((if (0:ℚ) < 1 then ((4:ℚ), (5:ℚ)) else ((0:ℚ), (0:ℚ))) = (4, 5) ∧
     ([(0:ℚ), 10] : List ℚ) ≠ [] ∧
     (inclMask [0, 10] 4 5).sum = 0) ∧
    (maskColumn [0, 10] 1 (4, 5) (0, 0)
        = unitVec ([(0:ℚ), 10] : List ℚ).length (argminAbs [0, 10] ((4 + 5) / 2)) ∧
     argminAbs [0, 10] ((4 + 5) / 2) < ([(0:ℚ), 10] : List ℚ).length ∧
     (∀ j, j < ([(0:ℚ), 10] : List ℚ).length →
       |([(0:ℚ), 10] : List ℚ).getD (argminAbs [0, 10] ((4 + 5) / 2)) 0 - (4 + 5) / 2|
         ≤ |([(0:ℚ), 10] : List ℚ).getD j 0 - (4 + 5) / 2|) ∧
     (maskColumn [0, 10] 1 (4, 5) (0, 0)).sum = 1) :=
  ⟨⟨by norm_num, by simp, by norm_num [inclMask]⟩,
   maskColumn_fallback [0, 10] 1 (4, 5) (0, 0) 4 5 (by norm_num) (by simp)
     (by norm_num [inclMask])⟩

/-! ## C1: conservation of the isopycnal remapping -/

/-- C1: for a solved streamfunction (one satisfying the boundary-value
problem's boundary condition `Psi[0] = Psi[-1] = 0`) and nondegenerate
buoyancy profiles aligned with it, the cumulative curve returned by
`Psib` has first element `0` and its final element equals the sum of the
signed depth-cell fluxes `flux_i = -(Psi[i+1] - Psi[i])`: the remapping
creates and destroys no transport. -/
theorem Psib_conservation (Psi b1 b2 : List ℚ) (nb : ℕ)
    (hb1 : b1.length = Psi.length) (hb2 : b2.length = Psi.length)
    (hnb : 2 ≤ nb)
    (hdeg : min (listMin b1) (listMin b2) < max (listMax b1) (listMax b2))
    (hne : Psi ≠ [])
    (h0 : Psi.headI = 0) (hlast : Psi.getLastD 0 = 0) :
    (Psib Psi b1 b2 nb).headI = 0 ∧
    (Psib Psi b1 b2 nb).getLastD 0 = (fluxes Psi).sum := by
  have hmidlen : (midpoints (linspace (min (listMin b1) (listMin b2))
      (max (listMax b1) (listMax b2)) nb)).length = nb - 1 := by
    rw [midpoints_length, linspace_length]
  have hmidne : midpoints (linspace (min (listMin b1) (listMin b2))
      (max (listMax b1) (listMax b2)) nb) ≠ [] := by
    intro h
    rw [h] at hmidlen
    simp at hmidlen
    omega
  constructor
  · exact scanl_headI _ _
  · simp only [Psib]
    rw [scanl_getLastD,
      transbOf_sum _ _ (maskCols_entries _ _ _ _ hmidne),
      maskCols_fst]
    · rw [fluxes_sum, h0, hlast]
      norm_num
    · rw [fluxes_length, adjPairs_length, hb1]
    · rw [fluxes_length, adjPairs_length, hb2]

/-- Witness for C1 at `Psi = [0, 1, 0]`, `b1 = b2 = [0, 1, 2]`,
`nb = 3`. -/
theorem Psib_conservation_check :
    (([(0:ℚ), 1, 2] : List ℚ).length = ([(0:ℚ), 1, 0] : List ℚ).length ∧
     2 ≤ 3 ∧
     min (listMin [0, 1, 2]) (listMin [0, 1, 2]) <
       max (listMax [0, 1, 2]) (listMax [0, 1, 2]) ∧
     ([(0:ℚ), 1, 0] : List ℚ) ≠ [] ∧
     ([(0:ℚ), 1, 0] : List ℚ).headI = 0 ∧
     ([(0:ℚ), 1, 0] : List ℚ).getLastD 0 = 0) ∧
    ((Psib [0, 1, 0] [0, 1, 2] [0, 1, 2] 3).headI = 0 ∧
     (Psib [0, 1, 0] [0, 1, 2] [0, 1, 2] 3).getLastD 0
        = (fluxes [0, 1, 0]).sum) :=
  ⟨⟨by norm_num, by norm_num,
    by norm_num [listMin, listMax],
    by simp, by norm_num,
    by simp [List.getLastD]⟩,
   Psib_conservation [0, 1, 0] [0, 1, 2] [0, 1, 2] 3 (by norm_num)
     (by norm_num) (by norm_num) (by norm_num [listMin, listMax])
     (by simp) (by norm_num) (by simp [List.getLastD])⟩

/-! ## Lemmas on the neighbor graph -/

theorem setNode_same {μ : Type} (g : GState μ) (i : ℕ) (n : WNode μ) :
    setNode g i n i = n := by
  simp [setNode]

theorem setNode_other {μ : Type} (g : GState μ) (i : ℕ) (n : WNode μ)
    (j : ℕ) (h : j ≠ i) : setNode g i n j = g j := by
  simp [setNode, h]

theorem add_left_core_ok {μ : Type} (g : GState μ) (self new : ℕ)
    (h1 : new ∉ nbrs (g self))
    (h2 : (g self).module.kind = .coupler → (g self).left = []) :
    add_left_core self new g =
      .ok (setNode g self { g self with left := (g self).left ++ [new] }) := by
  rw [add_left_core, if_neg h1, if_neg]
  rintro ⟨hc, hl⟩
  exact hl (h2 hc)

theorem add_right_core_ok {μ : Type} (g : GState μ) (self new : ℕ)
    (h1 : new ∉ nbrs (g self))
    (h2 : (g self).module.kind = .coupler → (g self).right = []) :
    add_right_core self new g =
      .ok (setNode g self { g self with right := (g self).right ++ [new] }) := by
  rw [add_right_core, if_neg h1, if_neg]
  rintro ⟨hc, hr⟩
  exact hr (h2 hc)

theorem add_left_neighbor_ok {μ : Type} (g : GState μ) (self new : ℕ)
    (hne : self ≠ new)
    (h1 : new ∉ nbrs (g self)) (h1' : self ∉ nbrs (g new))
    (h2 : (g self).module.kind = .coupler → (g self).left = [])
    (h3 : (g new).module.kind = .coupler → (g new).right = []) :
    add_left_neighbor self new false g = .ok
      (setNode (setNode g self { g self with left := (g self).left ++ [new] })
        new { g new with right := (g new).right ++ [self] }) := by
  rw [add_left_neighbor, add_left_core_ok g self new h1 h2]
  show backlink_neighbor self new _ = _
  rw [backlink_neighbor]
  have hg1self : (setNode g self
      { g self with left := (g self).left ++ [new] }) self
      = { g self with left := (g self).left ++ [new] } := setNode_same _ _ _
  have hg1new : (setNode g self
      { g self with left := (g self).left ++ [new] }) new = g new :=
    setNode_other _ _ _ _ (Ne.symm hne)
  rw [if_neg (by
    rw [hg1self]
    intro hmem
    exact h1 (by simp [nbrs, hmem]))]
  rw [add_right_core, hg1new, if_neg h1', if_neg]
  rintro ⟨hc, hr⟩
  exact hr (h3 hc)

theorem add_right_neighbor_ok {μ : Type} (g : GState μ) (self new : ℕ)
    (hne : self ≠ new)
    (h1 : new ∉ nbrs (g self)) (h1' : self ∉ nbrs (g new))
    (h2 : (g self).module.kind = .coupler → (g self).right = [])
    (h3 : (g new).module.kind = .coupler → (g new).left = []) :
    add_right_neighbor self new false g = .ok
      (setNode (setNode g self { g self with right := (g self).right ++ [new] })
        new { g new with left := (g new).left ++ [self] }) := by
  rw [add_right_neighbor, add_right_core_ok g self new h1 h2]
  show backlink_neighbor self new _ = _
  rw [backlink_neighbor]
  have hg1self : (setNode g self
      { g self with right := (g self).right ++ [new] }) self
      = { g self with right := (g self).right ++ [new] } := setNode_same _ _ _
  have hg1new : (setNode g self
      { g self with right := (g self).right ++ [new] }) new = g new :=
    setNode_other _ _ _ _ (Ne.symm hne)
  rw [if_pos (by
    rw [hg1self]
    show new ∈ (g self).right ++ [new]
    simp)]
  rw [add_left_core, hg1new, if_neg h1', if_neg]
  rintro ⟨hc, hl⟩
  exact hl (h3 hc)

theorem add_left_neighbor_dup {μ : Type} (g : GState μ) (self new : ℕ)
    (h : new ∈ nbrs (g self)) :
    add_left_neighbor self new false g = .error (.duplicate, g) := by
  rw [add_left_neighbor, add_left_core, if_pos h]

theorem add_right_neighbor_dup {μ : Type} (g : GState μ) (self new : ℕ)
    (h : new ∈ nbrs (g self)) :
    add_right_neighbor self new false g = .error (.duplicate, g) := by
  rw [add_right_neighbor, add_right_core, if_pos h]

/-! ## C8: symmetric edge insertion with duplicate rejection -/

/-- C8: for distinct, not-yet-adjacent nodes `A`, `B` (with the needed
slots free), a non-backlink `add_left_neighbor B A` appends `A` to `B`'s
left list and, within the same call, appends `B` exactly once to `A`'s
right list; a second insertion of the same pair, in either direction,
raises the duplicate-edge `KeyError` and leaves the whole graph (hence
all four adjacency lists) unchanged; and symmetrically for
`add_right_neighbor`. -/
theorem add_neighbor_symmetric {μ : Type} (g : GState μ) (A B : ℕ)
    (hAB : A ≠ B)
    (hadjB : A ∉ nbrs (g B)) (hadjA : B ∉ nbrs (g A)) :
    (((g B).module.kind = .coupler → (g B).left = []) →
     ((g A).module.kind = .coupler → (g A).right = []) →
     ∃ g', add_left_neighbor B A false g = .ok g' ∧
       (g' B).left = (g B).left ++ [A] ∧
       (g' B).right = (g B).right ∧
       (g' A).right = (g A).right ++ [B] ∧
       (g' A).left = (g A).left ∧
       (g' A).right.count B = 1 ∧
       add_left_neighbor B A false g' = .error (.duplicate, g') ∧
       add_right_neighbor A B false g' = .error (.duplicate, g')) ∧
    (((g B).module.kind = .coupler → (g B).right = []) →
     ((g A).module.kind = .coupler → (g A).left = []) →
     ∃ g', add_right_neighbor B A false g = .ok g' ∧
       (g' B).right = (g B).right ++ [A] ∧
       (g' B).left = (g B).left ∧
       (g' A).left = (g A).left ++ [B] ∧
       (g' A).right = (g A).right ∧
       (g' A).left.count B = 1 ∧
       add_right_neighbor B A false g' = .error (.duplicate, g') ∧
       add_left_neighbor A B false g' = .error (.duplicate, g')) := by
  have hBA : ¬ B = A := fun h => hAB h.symm
  have hBnotinA : B ∉ (g A).left ∧ B ∉ (g A).right := by
    constructor <;> intro hmem <;> exact hadjA (by simp [nbrs, hmem])
  constructor
  · intro h2 h3
    refine ⟨_, add_left_neighbor_ok g B A hBA hadjB hadjA h2 h3, ?_⟩
    have hB : (setNode (setNode g B { g B with left := (g B).left ++ [A] })
        A { g A with right := (g A).right ++ [B] }) B
        = { g B with left := (g B).left ++ [A] } := by
      rw [setNode_other _ _ _ _ hBA, setNode_same]
    have hA : (setNode (setNode g B { g B with left := (g B).left ++ [A] })
        A { g A with right := (g A).right ++ [B] }) A
        = { g A with right := (g A).right ++ [B] } := setNode_same _ _ _
    refine ⟨by rw [hB], by rw [hB], by rw [hA], by rw [hA], ?_, ?_, ?_⟩
    · rw [hA]
      show ((g A).right ++ [B]).count B = 1
      rw [List.count_append, List.count_eq_zero_of_not_mem hBnotinA.2]
      simp
    · apply add_left_neighbor_dup
      rw [hB]
      show A ∈ ((g B).left ++ [A]) ++ (g B).right
      simp
    · apply add_right_neighbor_dup
      rw [hA]
      show B ∈ (g A).left ++ ((g A).right ++ [B])
      simp
  · intro h2 h3
    refine ⟨_, add_right_neighbor_ok g B A hBA hadjB hadjA h2 h3, ?_⟩
    have hB : (setNode (setNode g B { g B with right := (g B).right ++ [A] })
        A { g A with left := (g A).left ++ [B] }) B
        = { g B with right := (g B).right ++ [A] } := by
      rw [setNode_other _ _ _ _ hBA, setNode_same]
    have hA : (setNode (setNode g B { g B with right := (g B).right ++ [A] })
        A { g A with left := (g A).left ++ [B] }) A
        = { g A with left := (g A).left ++ [B] } := setNode_same _ _ _
    refine ⟨by rw [hB], by rw [hB], by rw [hA], by rw [hA], ?_, ?_, ?_⟩
    · rw [hA]
      show ((g A).left ++ [B]).count B = 1
      rw [List.count_append, List.count_eq_zero_of_not_mem hBnotinA.1]
      simp
    · apply add_right_neighbor_dup
      rw [hB]
      show A ∈ (g B).left ++ ((g B).right ++ [A])
      simp
    · apply add_left_neighbor_dup
      rw [hA]
      show B ∈ ((g A).left ++ [B]) ++ (g A).right
      simp

/-- Witness for C8 on the two disconnected basins `0` and `1` of
`basinGraph`. -/
theorem add_neighbor_symmetric_check :
    ((0 : ℕ) ≠ 1 ∧ (0 : ℕ) ∉ nbrs (basinGraph 1) ∧
     (1 : ℕ) ∉ nbrs (basinGraph 0)) ∧
    ((((basinGraph 1).module.kind = .coupler → (basinGraph 1).left = []) →
      (((basinGraph 0).module.kind = .coupler → (basinGraph 0).right = [])) →
      ∃ g', add_left_neighbor 1 0 false basinGraph = .ok g' ∧
        (g' 1).left = (basinGraph 1).left ++ [0] ∧
        (g' 1).right = (basinGraph 1).right ∧
        (g' 0).right = (basinGraph 0).right ++ [1] ∧
        (g' 0).left = (basinGraph 0).left ∧
        (g' 0).right.count 1 = 1 ∧
        add_left_neighbor 1 0 false g' = .error (.duplicate, g') ∧
        add_right_neighbor 0 1 false g' = .error (.duplicate, g')) ∧
     (((basinGraph 1).module.kind = .coupler → (basinGraph 1).right = []) →
      (((basinGraph 0).module.kind = .coupler → (basinGraph 0).left = [])) →
      ∃ g', add_right_neighbor 1 0 false basinGraph = .ok g' ∧
        (g' 1).right = (basinGraph 1).right ++ [0] ∧
        (g' 1).left = (basinGraph 1).left ∧
        (g' 0).left = (basinGraph 0).left ++ [1] ∧
        (g' 0).right = (basinGraph 0).right ∧
        (g' 0).left.count 1 = 1 ∧
        add_right_neighbor 1 0 false g' = .error (.duplicate, g') ∧
        add_left_neighbor 0 1 false g' = .error (.duplicate, g'))) :=
  ⟨⟨by decide, by simp [basinGraph, trivNode, nbrs],
    by simp [basinGraph, trivNode, nbrs]⟩,
   add_neighbor_symmetric basinGraph 0 1 (by decide)
     (by simp [basinGraph, trivNode, nbrs])
     (by simp [basinGraph, trivNode, nbrs])⟩

/-! ## C9: coupler cardinality invariant -/

theorem add_left_core_inv {μ : Type} (g : GState μ) (self new : ℕ)
    (h : CouplerInv g) : CouplerInv (outState (add_left_core self new g)) := by
  rw [add_left_core]
  split_ifs with hdup hcard
  · exact h
  · exact h
  · simp only [outState]
    intro i hi
    by_cases his : i = self
    · subst his
      rw [setNode_same] at hi ⊢
      have hki : (g i).module.kind = .coupler := hi
      push_neg at hcard
      constructor
      · show ((g i).left ++ [new]).length ≤ 1
        rw [hcard hki]
        simp
      · exact (h i hki).2
    · rw [setNode_other _ _ _ _ his] at hi ⊢
      exact h i hi

theorem add_right_core_inv {μ : Type} (g : GState μ) (self new : ℕ)
    (h : CouplerInv g) : CouplerInv (outState (add_right_core self new g)) := by
  rw [add_right_core]
  split_ifs with hdup hcard
  · exact h
  · exact h
  · simp only [outState]
    intro i hi
    by_cases his : i = self
    · subst his
      rw [setNode_same] at hi ⊢
      have hki : (g i).module.kind = .coupler := hi
      push_neg at hcard
      constructor
      · exact (h i hki).1
      · show ((g i).right ++ [new]).length ≤ 1
        rw [hcard hki]
        simp
    · rw [setNode_other _ _ _ _ his] at hi ⊢
      exact h i hi

theorem add_left_neighbor_inv {μ : Type} (g : GState μ) (self new : ℕ)
    (h : CouplerInv g) :
    CouplerInv (outState (add_left_neighbor self new false g)) := by
  cases hres : add_left_core self new g with
  | error e =>
    have hcore := add_left_core_inv g self new h
    rw [hres] at hcore
    rw [add_left_neighbor, hres]
    exact hcore
  | ok g1 =>
    have hg1 : CouplerInv g1 := by
      have hcore := add_left_core_inv g self new h
      rw [hres] at hcore
      exact hcore
    rw [add_left_neighbor, hres]
    show CouplerInv (outState (backlink_neighbor self new g1))
    rw [backlink_neighbor]
    split_ifs with hmem
    · exact add_left_core_inv g1 new self hg1
    · exact add_right_core_inv g1 new self hg1

theorem add_right_neighbor_inv {μ : Type} (g : GState μ) (self new : ℕ)
    (h : CouplerInv g) :
    CouplerInv (outState (add_right_neighbor self new false g)) := by
  cases hres : add_right_core self new g with
  | error e =>
    have hcore := add_right_core_inv g self new h
    rw [hres] at hcore
    rw [add_right_neighbor, hres]
    exact hcore
  | ok g1 =>
    have hg1 : CouplerInv g1 := by
      have hcore := add_right_core_inv g self new h
      rw [hres] at hcore
      exact hcore
    rw [add_right_neighbor, hres]
    show CouplerInv (outState (backlink_neighbor self new g1))
    rw [backlink_neighbor]
    split_ifs with hmem
    · exact add_left_core_inv g1 new self hg1
    · exact add_right_core_inv g1 new self hg1

theorem applyOp_inv {μ : Type} (g : GState μ) (op : AddOp)
    (h : CouplerInv g) : CouplerInv (applyOp g op) := by
  cases op with
  | addL s n =>
    have hres := add_left_neighbor_inv g s n h
    have heq : applyOp g (AddOp.addL s n)
        = outState (add_left_neighbor s n false g) := by
      rw [applyOp]
      cases add_left_neighbor s n false g <;> rfl
    rw [heq]
    exact hres
  | addR s n =>
    have hres := add_right_neighbor_inv g s n h
    have heq : applyOp g (AddOp.addR s n)
        = outState (add_right_neighbor s n false g) := by
      rw [applyOp]
      cases add_right_neighbor s n false g <;> rfl
    rw [heq]
    exact hres

/-- C9: after any sequence of neighbor insertions (whether they succeed
or raise), every coupler node holds at most one left and at most one
right neighbor; a direct non-duplicate insertion on an occupied side of a
coupler raises the cardinality `ValueError` and leaves the graph
unchanged; and a basin accepts a further left neighbor whatever the
current length of its list, growing it by one. -/
theorem coupler_cardinality {μ : Type} (g0 : GState μ) (ops : List AddOp)
    (h0 : CouplerInv g0) :
    CouplerInv (applyOps g0 ops) ∧
    (∀ (g : GState μ) (self new : ℕ), (g self).module.kind = .coupler →
      new ∉ nbrs (g self) →
      ((g self).left ≠ [] →
        add_left_neighbor self new false g = .error (.cardinality, g)) ∧
      ((g self).right ≠ [] →
        add_right_neighbor self new false g = .error (.cardinality, g))) ∧
    (∀ (g : GState μ) (self new : ℕ), (g self).module.kind = .basin →
      self ≠ new → new ∉ nbrs (g self) → self ∉ nbrs (g new) →
      ((g new).module.kind = .coupler → (g new).right = []) →
      ∃ g', add_left_neighbor self new false g = .ok g' ∧
        (g' self).left.length = (g self).left.length + 1) := by
  refine ⟨?_, ?_, ?_⟩
  · induction ops generalizing g0 with
    | nil => exact h0
    | cons op rest ih =>
      show CouplerInv (applyOps (applyOp g0 op) rest)
      exact ih _ (applyOp_inv g0 op h0)
  · intro g self new hk hnm
    constructor
    · intro hl
      rw [add_left_neighbor, add_left_core, if_neg hnm, if_pos ⟨hk, hl⟩]
    · intro hr
      rw [add_right_neighbor, add_right_core, if_neg hnm, if_pos ⟨hk, hr⟩]
  · intro g self new hk hne hnm hnm' hcap
    refine ⟨_, add_left_neighbor_ok g self new hne hnm hnm'
      (fun hc => by rw [hk] at hc; exact MKind.noConfusion hc) hcap, ?_⟩
    have hval : (setNode (setNode g self
        { g self with left := (g self).left ++ [new] })
        new { g new with right := (g new).right ++ [self] }) self
        = { g self with left := (g self).left ++ [new] } := by
      rw [setNode_other _ _ _ _ hne, setNode_same]
    rw [hval]
    show ((g self).left ++ [new]).length = _
    simp

/-- Witness for C9 on the all-basin graph with the empty operation
sequence. -/
theorem coupler_cardinality_check :
    CouplerInv basinGraph ∧
    (CouplerInv (applyOps basinGraph []) ∧
     (∀ (g : GState Unit) (self new : ℕ), (g self).module.kind = .coupler →
       new ∉ nbrs (g self) →
       ((g self).left ≠ [] →
         add_left_neighbor self new false g = .error (.cardinality, g)) ∧
       ((g self).right ≠ [] →
         add_right_neighbor self new false g = .error (.cardinality, g))) ∧
     (∀ (g : GState Unit) (self new : ℕ), (g self).module.kind = .basin →
       self ≠ new → new ∉ nbrs (g self) → self ∉ nbrs (g new) →
       ((g new).module.kind = .coupler → (g new).right = []) →
       ∃ g', add_left_neighbor self new false g = .ok g' ∧
         (g' self).left.length = (g self).left.length + 1)) :=
  ⟨by intro i hi; simp [basinGraph, trivNode, trivPMod] at hi,
   coupler_cardinality basinGraph []
     (by intro i hi; simp [basinGraph, trivNode, trivPMod] at hi)⟩

/-! ## C7: kind dispatch of `timestep_basin` / `update_coupler` -/

/-- C7: `timestep_basin` raises the `NotABasinError` `TypeError` exactly
when the wrapped module's kind tag is not `basin`, and `update_coupler`
raises the `NotACouplerError` `TypeError` exactly when the tag is not
`coupler`; in the raising case the graph state is unchanged.  (On a
matching kind the call may still fail inside numpy, but only with
`Err.other`.) -/
theorem kind_dispatch_errors {μ : Type} (g : GState μ) (i : ℕ) (dt : ℚ) :
    ((∃ e, timestep_basin dt i g = .error (Err.notABasin, e)) ↔
      (g i).module.kind ≠ .basin) ∧
    ((g i).module.kind ≠ .basin →
      timestep_basin dt i g = .error (.notABasin, g)) ∧
    ((∃ e, update_coupler i g = .error (Err.notACoupler, e)) ↔
      (g i).module.kind ≠ .coupler) ∧
    ((g i).module.kind ≠ .coupler →
      update_coupler i g = .error (.notACoupler, g)) := by
  refine ⟨⟨?_, ?_⟩, ?_, ⟨?_, ?_⟩, ?_⟩
  · rintro ⟨e, he⟩ hkb
    rw [timestep_basin, if_neg (fun h => h hkb)] at he
    split at he
    · simp at he
    · split at he
      · split at he
        · simp at he
        · simp at he
      · simp at he
  · intro hk
    exact ⟨g, by rw [timestep_basin, if_pos hk]⟩
  · intro hk
    rw [timestep_basin, if_pos hk]
  · rintro ⟨e, he⟩ hkc
    rw [update_coupler, if_neg (fun h => h hkc)] at he
    simp at he
  · intro hk
    exact ⟨g, by rw [update_coupler, if_pos hk]⟩
  · intro hk
    rw [update_coupler, if_pos hk]

/-- Witness for C7 at the concrete graph `basinGraph`, node `0`,
`dt = 0`. -/
theorem kind_dispatch_errors_check :
    ((∃ e, timestep_basin 0 0 basinGraph = .error (Err.notABasin, e)) ↔
      (basinGraph 0).module.kind ≠ .basin) ∧
    ((basinGraph 0).module.kind ≠ .basin →
      timestep_basin 0 0 basinGraph = .error (.notABasin, basinGraph)) ∧
    ((∃ e, update_coupler 0 basinGraph = .error (Err.notACoupler, e)) ↔
      (basinGraph 0).module.kind ≠ .coupler) ∧
    ((basinGraph 0).module.kind ≠ .coupler →
      update_coupler 0 basinGraph = .error (.notACoupler, basinGraph)) :=
  kind_dispatch_errors basinGraph 0 0

/-! ## C2: argument binding of `update_coupler` -/

/-- C2 counterexample: on the recording coupler of `recGraph` (left
neighbor buoyancy `10`, right neighbor buoyancy `20`), `update_coupler`
calls `update(b=..., bs=...)` binding the surface-buoyancy argument `bs`
to the LEFT neighbor's buoyancy `10`, not to the right neighbor's `20`
as the claim states. -/
theorem update_coupler_surface_binding_cex :
    nodeB recGraph 1 = some (NpVal.scl 10) ∧
    nodeB recGraph 2 = some (NpVal.scl 20) ∧
    ((outState (update_coupler 0 recGraph)) 0).mstate.2
      = some (NpVal.scl 10) ∧
    ((outState (update_coupler 0 recGraph)) 0).mstate.2
      ≠ nodeB recGraph 2 := by
  refine ⟨rfl, rfl, rfl, ?_⟩
  decide

/-- C2 (amended): for a coupler node, `update_coupler` reads the first
left neighbor's buoyancy `b1` and the first right neighbor's buoyancy
`b2` (`None` when the respective list is empty); if the module exposes a
surface-buoyancy accessor `bs` it calls `update(b=b2, bs=b1)` — the
surface-buoyancy argument is bound to the first LEFT neighbor's buoyancy
and the boundary-buoyancy argument to the first RIGHT neighbor's —
otherwise it calls `update(b1=b1, b2=b2)`; it then calls `solve()` and
refreshes the node's transport buffer from `Psibz()` when supported, else
to the single-element list `[Psi]`. -/
theorem update_coupler_spec {μ : Type} (g : GState μ) (i : ℕ)
    (hk : (g i).module.kind = .coupler)
    (bl br : Option NpVal)
    (hbl : bl = match (g i).left with | [] => none | j :: _ => nodeB g j)
    (hbr : br = match (g i).right with | [] => none | j :: _ => nodeB g j) :
    update_coupler i g = .ok (setNode g i
      { g i with
        mstate := (g i).module.solveF
          (if (g i).module.hasBS then
            (g i).module.updatebbs br bl (g i).mstate
           else (g i).module.updateb1b2 bl br (g i).mstate),
        psi := if (g i).module.hasPsibz then
            (g i).module.psibzF ((g i).module.solveF
              (if (g i).module.hasBS then
                (g i).module.updatebbs br bl (g i).mstate
               else (g i).module.updateb1b2 bl br (g i).mstate))
          else [(g i).module.psiF ((g i).module.solveF
              (if (g i).module.hasBS then
                (g i).module.updatebbs br bl (g i).mstate
               else (g i).module.updateb1b2 bl br (g i).mstate))] }) := by
  subst hbl hbr
  rw [update_coupler, if_neg (fun h => h hk)]

/-- Witness for C2 (amended) on the concrete graph `recGraph`. -/
theorem update_coupler_spec_check :
    ((recGraph 0).module.kind = .coupler ∧
     (some (NpVal.scl 10) : Option NpVal)
       = (match (recGraph 0).left with | [] => none | j :: _ => nodeB recGraph j) ∧
     (some (NpVal.scl 20) : Option NpVal)
       = (match (recGraph 0).right with | [] => none | j :: _ => nodeB recGraph j)) ∧
    update_coupler 0 recGraph = .ok (setNode recGraph 0
      { recGraph 0 with
        mstate := (recGraph 0).module.solveF
          (if (recGraph 0).module.hasBS then
            (recGraph 0).module.updatebbs (some (NpVal.scl 20))
              (some (NpVal.scl 10)) (recGraph 0).mstate
           else (recGraph 0).module.updateb1b2 (some (NpVal.scl 10))
              (some (NpVal.scl 20)) (recGraph 0).mstate),
        psi := if (recGraph 0).module.hasPsibz then
            (recGraph 0).module.psibzF ((recGraph 0).module.solveF
              (if (recGraph 0).module.hasBS then
                (recGraph 0).module.updatebbs (some (NpVal.scl 20))
                  (some (NpVal.scl 10)) (recGraph 0).mstate
               else (recGraph 0).module.updateb1b2 (some (NpVal.scl 10))
                  (some (NpVal.scl 20)) (recGraph 0).mstate))
          else [(recGraph 0).module.psiF ((recGraph 0).module.solveF
              (if (recGraph 0).module.hasBS then
                (recGraph 0).module.updatebbs (some (NpVal.scl 20))
                  (some (NpVal.scl 10)) (recGraph 0).mstate
               else (recGraph 0).module.updateb1b2 (some (NpVal.scl 10))
                  (some (NpVal.scl 20)) (recGraph 0).mstate))] }) :=
  ⟨⟨rfl, rfl, rfl⟩, update_coupler_spec recGraph 0 rfl _ _ rfl rfl⟩

/-! ## Lemmas on broadcasting arithmetic, for the net-flux computation -/

theorem zipWith_congr_funQ (f g' : ℚ → ℚ → ℚ) (h : ∀ a b, f a b = g' a b)
    (l1 l2 : List ℚ) : List.zipWith f l1 l2 = List.zipWith g' l1 l2 := by
  have hfg : f = g' := by
    funext a b
    exact h a b
  rw [hfg]

theorem zipWith_sub_sub (ra : List ℚ) : ∀ (za xb : List ℚ),
    List.zipWith (· - ·) (List.zipWith (· - ·) ra za) xb
      = List.zipWith (· - ·) ra (List.zipWith (· + ·) za xb) := by
  induction ra with
  | nil => intro za xb; simp
  | cons r rs ih =>
    intro za xb
    cases za with
    | nil => simp
    | cons z zs =>
      cases xb with
      | nil => simp
      | cons x xs =>
        simp only [List.zipWith_cons_cons, ih]
        congr 1
        ring

theorem npSub_zero (v : NpVal) : npSub v (NpVal.scl 0) = .ok v := by
  cases v with
  | scl q => simp [npSub]
  | arr a => simp [npSub]

theorem npSub_npAdd_assoc {z x z1 R R1 : NpVal}
    (hadd : npAdd z x = .ok z1) (hsub : npSub R z1 = .ok R1) :
    ∃ R', npSub R z = .ok R' ∧ npSub R' x = .ok R1 := by
  cases z with
  | scl a =>
    cases x with
    | scl b =>
      simp only [npAdd, Except.ok.injEq] at hadd
      subst hadd
      cases R with
      | scl r =>
        simp only [npSub, Except.ok.injEq] at hsub
        subst hsub
        refine ⟨.scl (r - a), rfl, ?_⟩
        simp only [npSub, Except.ok.injEq, NpVal.scl.injEq]
        ring
      | arr ra =>
        simp only [npSub, Except.ok.injEq] at hsub
        subst hsub
        refine ⟨.arr (ra.map (fun t => t - a)), rfl, ?_⟩
        simp only [npSub, Except.ok.injEq, NpVal.arr.injEq, List.map_map]
        apply List.map_congr_left
        intro t _
        simp only [Function.comp]
        ring
    | arr xb =>
      simp only [npAdd, Except.ok.injEq] at hadd
      subst hadd
      cases R with
      | scl r =>
        simp only [npSub, Except.ok.injEq] at hsub
        subst hsub
        refine ⟨.scl (r - a), rfl, ?_⟩
        simp only [npSub, Except.ok.injEq, NpVal.arr.injEq, List.map_map]
        apply List.map_congr_left
        intro t _
        simp only [Function.comp]
        ring
      | arr ra =>
        simp only [npSub] at hsub
        rw [List.length_map] at hsub
        split_ifs at hsub with hlen
        simp only [Except.ok.injEq] at hsub
        subst hsub
        refine ⟨.arr (ra.map (fun t => t - a)), rfl, ?_⟩
        simp only [npSub, List.length_map]
        rw [if_pos hlen]
        simp only [Except.ok.injEq, NpVal.arr.injEq]
        rw [List.zipWith_map_left, List.zipWith_map_right]
        apply zipWith_congr_funQ
        intro p q
        ring
  | arr za =>
    cases x with
    | scl b =>
      simp only [npAdd, Except.ok.injEq] at hadd
      subst hadd
      cases R with
      | scl r =>
        simp only [npSub, Except.ok.injEq] at hsub
        subst hsub
        refine ⟨.arr (za.map (fun t => r - t)), rfl, ?_⟩
        simp only [npSub, Except.ok.injEq, NpVal.arr.injEq, List.map_map]
        apply List.map_congr_left
        intro t _
        simp only [Function.comp]
        ring
      | arr ra =>
        simp only [npSub] at hsub
        rw [List.length_map] at hsub
        split_ifs at hsub with hlen
        simp only [Except.ok.injEq] at hsub
        subst hsub
        refine ⟨.arr (List.zipWith (· - ·) ra za), ?_, ?_⟩
        · simp only [npSub]
          rw [if_pos hlen]
        · simp only [npSub, Except.ok.injEq, NpVal.arr.injEq]
          rw [List.map_zipWith, List.zipWith_map_right]
          apply zipWith_congr_funQ
          intro p q
          ring
    | arr xb =>
      simp only [npAdd] at hadd
      split_ifs at hadd with hlen1
      simp only [Except.ok.injEq] at hadd
      subst hadd
      cases R with
      | scl r =>
        simp only [npSub, Except.ok.injEq] at hsub
        subst hsub
        refine ⟨.arr (za.map (fun t => r - t)), rfl, ?_⟩
        simp only [npSub, List.length_map]
        rw [if_pos hlen1]
        simp only [Except.ok.injEq, NpVal.arr.injEq]
        rw [List.map_zipWith, List.zipWith_map_left]
        apply zipWith_congr_funQ
        intro p q
        ring
      | arr ra =>
        simp only [npSub] at hsub
        rw [List.length_zipWith] at hsub
        split_ifs at hsub with hlen2
        simp only [Except.ok.injEq] at hsub
        subst hsub
        have hra : ra.length = za.length := by omega
        refine ⟨.arr (List.zipWith (· - ·) ra za), ?_, ?_⟩
        · simp only [npSub]
          rw [if_pos hra]
        · simp only [npSub, List.length_zipWith]
          rw [if_pos (by omega)]
          simp only [Except.ok.injEq, NpVal.arr.injEq]
          exact zipWith_sub_sub ra za xb

theorem subfold (t : List NpVal) :
    ∀ (z R L W : NpVal), t.foldlM npAdd z = .ok L → npSub R L = .ok W →
    ∃ R', npSub R z = .ok R' ∧ t.foldlM npSub R' = .ok W := by
  induction t with
  | nil =>
    intro z R L W hsum hsub
    have hzL : z = L := by simpa [pure, Except.pure] using hsum
    subst hzL
    exact ⟨W, hsub, rfl⟩
  | cons x t ih =>
    intro z R L W hsum hsub
    rw [List.foldlM_cons] at hsum
    cases hz1 : npAdd z x with
    | error e =>
      rw [hz1] at hsum
      exact absurd hsum (by simp [Bind.bind, Except.bind])
    | ok z1 =>
      rw [hz1] at hsum
      have hsum' : t.foldlM npAdd z1 = .ok L := hsum
      obtain ⟨R1, hR1, hfold⟩ := ih z1 R L W hsum' hsub
      obtain ⟨R', hR', hR'x⟩ := npSub_npAdd_assoc hz1 hR1
      refine ⟨R', hR', ?_⟩
      rw [List.foldlM_cons, hR'x]
      exact hfold

theorem fold_pick_op {α : Type} (op : NpVal → NpVal → Except Unit NpVal)
    (pick : α → Except Unit NpVal) (c : ℚ) (l : List α) :
    ∀ (vs : List NpVal) (z : NpVal),
      pickMapM (fun j => (pick j).map (npMul c)) l = .ok vs →
      l.foldlM (fun acc j => do
        let v ← pick j
        op acc (npMul c v)) z = vs.foldlM op z := by
  induction l with
  | nil =>
    intro vs z h
    simp only [pickMapM, Except.ok.injEq] at h
    subst h
    rfl
  | cons a t ih =>
    intro vs z h
    simp only [pickMapM] at h
    cases hp : pick a with
    | error e =>
      have hfa : Except.map (npMul c) (pick a) = (.error e : Except Unit NpVal) := by
        rw [hp]
        rfl
      rw [hfa] at h
      simp at h
    | ok v =>
      have hfa : Except.map (npMul c) (pick a) = .ok (npMul c v) := by
        rw [hp]
        rfl
      rw [hfa] at h
      cases ht : pickMapM (fun j => (pick j).map (npMul c)) t with
      | error e =>
        rw [ht] at h
        simp at h
      | ok vs' =>
        rw [ht] at h
        simp only [Except.ok.injEq] at h
        subst h
        have hL : (a :: t).foldlM (fun acc j => do
              let v' ← pick j
              op acc (npMul c v')) z
            = op z (npMul c v) >>= fun z' => t.foldlM (fun acc j => do
              let v' ← pick j
              op acc (npMul c v')) z' := by
          rw [List.foldlM_cons, hp]
          rfl
        rw [hL, List.foldlM_cons]
        cases hop : op z (npMul c v) with
        | error e => rfl
        | ok z' => exact ih vs' z' ht

/-! ## C3: net flux of `timestep_basin` -/

/-- C3: on a basin node whose wrapped module is not the surface mixed
layer, `timestep_basin` passes to `timestep` the net flux obtained by
summing, over right-neighbor couplers, the first element of each stored
transport buffer scaled by `1e6`, and subtracting, over left-neighbor
couplers, the last element of each stored transport buffer scaled by
`1e6` (broadcasting addition, hypotheses stating the sums and difference
are defined). -/
theorem timestep_basin_flux {μ : Type} (g : GState μ) (i : ℕ) (dt : ℚ)
    (hk : (g i).module.kind = .basin)
    (hml : (g i).module.isSOML = false)
    (lr ll : List NpVal)
    (hlr : pickMapM (fun j => (pickHead (g j).psi).map (npMul 1000000))
      (g i).right = .ok lr)
    (hll : pickMapM (fun j => (pickLast (g j).psi).map (npMul 1000000))
      (g i).left = .ok ll)
    (R L W : NpVal)
    (hR : npSum lr = .ok R) (hL : npSum ll = .ok L)
    (hW : npSub R L = .ok W) :
    timestep_basin dt i g = .ok (setNode g i
      { g i with mstate := (g i).module.timestepF W dt (g i).mstate }) := by
  have hright : (g i).right.foldlM (fun acc j => do
        let v ← pickHead (g j).psi
        npAdd acc (npMul 1000000 v)) (NpVal.scl 0) = .ok R :=
    (fold_pick_op npAdd (fun j => pickHead (g j).psi) 1000000
      (g i).right lr (NpVal.scl 0) hlr).trans hR
  obtain ⟨R', hR', hfold⟩ := subfold ll (NpVal.scl 0) R L W hL hW
  rw [npSub_zero] at hR'
  injection hR' with hRR'
  subst hRR'
  have hleft : (g i).left.foldlM (fun acc j => do
        let v ← pickLast (g j).psi
        npSub acc (npMul 1000000 v)) R = .ok W :=
    (fold_pick_op npSub (fun j => pickLast (g j).psi) 1000000
      (g i).left ll R hll).trans hfold
  have hwa : computeWA g (g i) = .ok W := by
    rw [computeWA, hright]
    exact hleft
  rw [timestep_basin, if_neg (fun h => h hk), hwa]
  simp [hml]

/-- Witness for C3 on the concrete graph `fluxGraph`: right neighbor
transport head `3`, left neighbor transport last `7`, flux
`3e6 - 7e6`. -/
theorem timestep_basin_flux_check :
    ((fluxGraph 0).module.kind = .basin ∧
     (fluxGraph 0).module.isSOML = false ∧
     pickMapM (fun j => (pickHead (fluxGraph j).psi).map (npMul 1000000))
       (fluxGraph 0).right = .ok [NpVal.scl (1000000 * 3)] ∧
     pickMapM (fun j => (pickLast (fluxGraph j).psi).map (npMul 1000000))
       (fluxGraph 0).left = .ok [NpVal.scl (1000000 * 7)] ∧
     npSum [NpVal.scl (1000000 * 3)] = .ok (NpVal.scl (0 + 1000000 * 3)) ∧
     npSum [NpVal.scl (1000000 * 7)] = .ok (NpVal.scl (0 + 1000000 * 7)) ∧
     npSub (NpVal.scl (0 + 1000000 * 3)) (NpVal.scl (0 + 1000000 * 7))
       = .ok (NpVal.scl (0 + 1000000 * 3 - (0 + 1000000 * 7)))) ∧
    timestep_basin 1 0 fluxGraph = .ok (setNode fluxGraph 0
      { fluxGraph 0 with
        mstate := (fluxGraph 0).module.timestepF
          (NpVal.scl (0 + 1000000 * 3 - (0 + 1000000 * 7))) 1
          (fluxGraph 0).mstate }) :=
  ⟨⟨rfl, rfl, rfl, rfl, rfl, rfl, rfl⟩,
   timestep_basin_flux fluxGraph 0 1 rfl rfl
     [NpVal.scl (1000000 * 3)] [NpVal.scl (1000000 * 7)] rfl rfl
     (NpVal.scl (0 + 1000000 * 3)) (NpVal.scl (0 + 1000000 * 7))
     (NpVal.scl (0 + 1000000 * 3 - (0 + 1000000 * 7))) rfl rfl rfl⟩
